import Mathlib

/-!
# Verification of the redbeat periodic-task scheduler core

Shallow embedding of `src/redbeat/schedulers.py` (a Redis-backed
celery-beat scheduler).  The remote Redis store is modelled at its
interface boundary as explicit state: one association list per hash
sub-field used by the code (`periodic` holding serialized task
definitions, `meta` holding run state), the two pending-change sets
(`deletes`, `updates`) as lists consumed from the head (Redis `SPOP`
picks an arbitrary member; the embedding fixes head order), and the
due-queue sorted set as an association list name ↦ score.  Timestamps
are integers (seconds); the JSON date-aware encode/decode helper is an
external opaque marshal/unmarshal, so stored payloads are kept as
structured values rather than strings.
-/

set_option autoImplicit false

/-! ## Association-list primitives for the store model -/

/-- Look up the value stored under key `k`. -/
def lookupF {α : Type} (l : List (String × α)) (k : String) : Option α :=
  (l.find? (fun p => p.1 == k)).map Prod.snd

/-- Remove every binding of key `k`. -/
def eraseK {α : Type} (l : List (String × α)) (k : String) : List (String × α) :=
  l.filter (fun p => p.1 != k)

/-- Upsert: bind key `k` to `v`, dropping any previous binding. -/
def setK {α : Type} (l : List (String × α)) (k : String) (v : α) : List (String × α) :=
  (k, v) :: eraseK l k

/-- Redis `SADD`: add a member to a set (no duplicates). -/
def sadd (l : List String) (n : String) : List String :=
  if n ∈ l then l else l ++ [n]

/-- Redis `SREM`: remove a member from a set. -/
def srem (l : List String) (n : String) : List String :=
  l.filter (fun m => m != n)

/-- Redis `ZADD`: upsert member `n` with score `s` into a sorted set. -/
def zadd (l : List (String × Int)) (n : String) (s : Int) : List (String × Int) :=
  setK l n s

/-- Redis `ZREM`: remove member `n` from a sorted set. -/
def zrem (l : List (String × Int)) (n : String) : List (String × Int) :=
  eraseK l n

/-- Redis `ZSCORE`: score of member `n`, if present. -/
def zscore (l : List (String × Int)) (n : String) : Option Int :=
  lookupF l n

/-- Redis `ZRANGEBYSCORE key lo hi`: the members whose score lies in
`[lo, hi]` (both bounds inclusive).  Redis orders the result by score;
the callers below only use it as the domain of a mapping, so the
member order of the underlying list is kept. -/
def zrangebyscore (l : List (String × Int)) (lo hi : Int) : List String :=
  (l.filter (fun p => decide (lo ≤ p.2 ∧ p.2 ≤ hi))).map Prod.fst

/-- Member names of a sorted set. -/
def znames (l : List (String × Int)) : List String :=
  l.map Prod.fst

/-! ## Data model (`PeriodicTask` and its two schedule policies) -/

/-- `PeriodicTask.Interval` (lines 91-111): `every` counts of a period
named by a string (`'seconds'`, `'minutes'`, ...), handed to
`datetime.timedelta`. -/
structure IntervalP where
  every : Int
  period : String
deriving DecidableEq, Repr

/-- `PeriodicTask.Crontab` (lines 113-136): the five crontab field
specifications, kept as the strings the code passes through to
`celery.schedules.crontab`. -/
structure CrontabP where
  minute : String
  hour : String
  day_of_week : String
  day_of_month : String
  month_of_year : String
deriving DecidableEq, Repr

/-- The serialized form stored under the `periodic` hash sub-field:
`save` dumps the instance `__dict__` with each policy flattened to its
own `__dict__` (lines 196-201).  Class-attribute defaults (`queue = None`
and friends) are materialized as explicit optional fields; a key absent
from the Python instance dict and a key bound to `None` are observably
identical to `from_dict`'s `setattr` loop, which restores class defaults
either way. -/
structure TaskDict where
  name : String
  task : String
  interval : Option IntervalP
  crontab : Option CrontabP
  args : List String
  kwargs : List (String × String)
  queue : Option String
  exchange : Option String
  routing_key : Option String
  expires : Option Int
  enabled : Bool
  description : Option String
deriving DecidableEq, Repr

/-- The run state stored under the `meta` hash sub-field
(`RedBeatSchedulerEntry.save`, lines 307-312). -/
structure MetaDict where
  last_run_at : Int
  total_run_count : Nat
deriving DecidableEq, Repr

/-- Python exceptions surfaced by the embedded code paths. -/
inductive PyErr where
  | keyError (k : String)
  | responseError (msg : String)
  | nameError
  | attributeError
  | validationError
deriving DecidableEq, Repr

/-- The in-memory `PeriodicTask` object (lines 49-89): the same field
set as its serialized dict. -/
structure PeriodicTask where
  name : String
  task : String
  interval : Option IntervalP
  crontab : Option CrontabP
  args : List String
  kwargs : List (String × String)
  queue : Option String
  exchange : Option String
  routing_key : Option String
  expires : Option Int
  enabled : Bool
  description : Option String
deriving DecidableEq, Repr

/-- The `schedule` argument of `PeriodicTask.__init__`: the code tests
`isinstance(schedule, Interval)` / `isinstance(schedule, Crontab)`. -/
inductive ScheduleArg where
  | intervalS (i : IntervalP)
  | crontabS (c : CrontabP)
deriving DecidableEq, Repr

/-- `PeriodicTask.__init__` (lines 76-89): stores the task target and
enabled flag, assigns the schedule to the matching policy slot, copies
args/kwargs, and derives `self.name` from the configured key namespace
`px` (`REDBEAT_KEY_PREFIX`), the task name, and the optional
disambiguating `key`. -/
def PeriodicTask.init (px : String) (nm : String) (task : String) (schedule : ScheduleArg)
    (key : Option String) (enabled : Bool) (task_args : List String)
    (task_kwargs : List (String × String)) : PeriodicTask :=
  { name := match key with
      | none => px ++ nm
      | some k => px ++ nm ++ ":" ++ k
    task := task
    enabled := enabled
    interval := match schedule with
      | .intervalS i => some i
      | _ => none
    crontab := match schedule with
      | .crontabS c => some c
      | _ => none
    args := task_args
    kwargs := task_kwargs
    queue := none
    exchange := none
    routing_key := none
    expires := none
    description := none }

/-- The serialization performed inside `save` (lines 196-201): a deep
copy of the instance dict with each policy replaced by its field set.
With policies already stored structurally this is the identity on the
common field set. -/
def PeriodicTask.to_dict (t : PeriodicTask) : TaskDict :=
  { name := t.name, task := t.task, interval := t.interval, crontab := t.crontab
    args := t.args, kwargs := t.kwargs, queue := t.queue, exchange := t.exchange
    routing_key := t.routing_key, expires := t.expires, enabled := t.enabled
    description := t.description }

/-- `PeriodicTask.clean` (lines 207-215): `ValidationError` when both
policies are set, and when neither is. -/
def PeriodicTask.clean (t : PeriodicTask) : Option PyErr :=
  if t.interval.isSome ∧ t.crontab.isSome then some .validationError
  else if ¬ (t.interval.isSome ∨ t.crontab.isSome) then some .validationError
  else none

/-- `PeriodicTask.from_dict` (lines 166-187): rebuild a task from its
stored dict.  The code binds the local `schedule` from `d['interval']`
and then overwrites it from `d['crontab']` when present, so crontab
wins when both keys hold data, and a dict with neither leaves
`schedule` unbound — the constructor call then raises `NameError`.
After construction, every key of the dict except `interval`, `crontab`
and `schedule` is copied onto the instance with `setattr`, overwriting
the constructor's fields (the stored `name` in particular replaces the
re-prefixed one). -/
def PeriodicTask.from_dict (px : String) (d : TaskDict) : Except PyErr PeriodicTask :=
  match d.crontab, d.interval with
  | none, none => .error .nameError
  | cr, iv =>
    let sched : ScheduleArg := match cr, iv with
      | some c, _ => .crontabS c
      | none, some i => .intervalS i
      | none, none => .intervalS ⟨0, "seconds"⟩
    let t0 := PeriodicTask.init px d.name d.task sched none true [] []
    .ok { t0 with
      name := d.name, task := d.task, args := d.args, kwargs := d.kwargs
      queue := d.queue, exchange := d.exchange, routing_key := d.routing_key
      expires := d.expires, enabled := d.enabled, description := d.description }

/-! ## The store state and the stateful operations -/

/-- The shared Redis state, at the interface boundary the code uses:
the `periodic` and `meta` hash sub-fields per task key, the
pending-deletes and pending-updates sets, and the due-queue sorted
set. -/
structure StoreState where
  periodic : List (String × TaskDict)
  meta : List (String × MetaDict)
  deletes : List String
  updates : List String
  sched : List (String × Int)
deriving DecidableEq, Repr

/-- `PeriodicTask.save` (lines 193-205): run `clean` first — a
validation failure propagates before any store command — then
`SREM` the name from pending-deletes, `HSET` the serialized dict under
the `periodic` sub-field, and `SADD` the name to pending-updates.
The returned pair carries the (possibly unchanged) store and the
raised exception, if any. -/
def PeriodicTask.save (t : PeriodicTask) (st : StoreState) : StoreState × Option PyErr :=
  match t.clean with
  | some e => (st, some e)
  | none =>
    ({ st with
        deletes := srem st.deletes t.name
        periodic := setK st.periodic t.name t.to_dict
        updates := sadd st.updates t.name }, none)

/-- `PeriodicTask.delete` (lines 189-191): `SADD` the name to
pending-deletes and delete the backing key (both sub-fields). -/
def PeriodicTask.delete (t : PeriodicTask) (st : StoreState) : StoreState :=
  { st with
      deletes := sadd st.deletes t.name
      periodic := eraseK st.periodic t.name
      meta := eraseK st.meta t.name }

/-- Is `pat` a prefix of `s`? (over character lists, structurally). -/
def isPrefixL (pat s : List Char) : Bool :=
  match pat, s with
  | [], _ => true
  | _ :: _, [] => false
  | a :: as, b :: bs => a == b && isPrefixL as bs

/-- Is `pat` an infix of `s`? (over character lists, structurally). -/
def hasInfixL (pat : List Char) (s : List Char) : Bool :=
  match s with
  | [] => isPrefixL pat []
  | _ :: rest => isPrefixL pat s || hasInfixL pat rest

/-- Python's `'WRONGTYPE' in message` test used to classify a store
`ResponseError` (lines 152, 268). -/
def containsWT (s : String) : Bool :=
  hasInfixL "WRONGTYPE".toList s.toList

/-- `PeriodicTask.load` (lines 147-160), parametrized by the two store
responses it can consume: the `HGET key periodic` response and — only
reached on a WRONGTYPE classification — the legacy bare `GET key`
response.  A response is either a value (`none` modelling an
absent/empty, falsy payload) or a raised `ResponseError` message.
A WRONGTYPE `ResponseError` from `HGET` is caught and the bare key is
read instead; any other `ResponseError` is re-raised; a falsy payload
raises `KeyError(task_name)`. -/
def PeriodicTask.load (task_name : String)
    (hgetRes : Except String (Option TaskDict))
    (getRes : Except String (Option TaskDict)) : Except PyErr TaskDict :=
  match hgetRes with
  | .error msg =>
    if containsWT msg then
      match getRes with
      | .error m2 => .error (.responseError m2)
      | .ok none => .error (.keyError task_name)
      | .ok (some d) => .ok d
    else .error (.responseError msg)
  | .ok none => .error (.keyError task_name)
  | .ok (some d) => .ok d

/-- `PeriodicTask.load` run against the modelled store: the store keeps
task definitions under the `periodic` hash sub-field, so `HGET`
answers with the looked-up value and no error, and the legacy bare-key
read answers empty. -/
def PeriodicTask.loadS (st : StoreState) (task_name : String) : Except PyErr TaskDict :=
  PeriodicTask.load task_name (.ok (lookupF st.periodic task_name)) (.ok none)

/-- `PeriodicTask.from_key` (lines 162-164): load then rebuild. -/
def PeriodicTask.from_keyS (px : String) (st : StoreState) (task_name : String) :
    Except PyErr PeriodicTask :=
  (PeriodicTask.loadS st task_name).bind (PeriodicTask.from_dict px)

example :
    PeriodicTask.clean (PeriodicTask.init "rb:" "t" "tgt" (.intervalS ⟨30, "seconds"⟩)
      none true [] []) = none := by decide

example :
    PeriodicTask.load "t" (.error "WRONGTYPE Operation against a key") (.ok none) =
      .error (.keyError "t") := rfl

example :
    PeriodicTask.load "t" (.error "ERR other") (.ok none) =
      .error (.responseError "ERR other") := rfl

/-! ## Schedule entries (`RedBeatSchedulerEntry`) -/

/-- The outcome of `RedBeatSchedulerEntry.load`. -/
inductive EntryLoadResult where
  /-- The method returns a meta mapping (`none` models the empty `{}`). -/
  | returns (m : Option MetaDict)
  /-- The method re-raises a store error. -/
  | raised (msg : String)
  /-- The method reads the local variable `meta` without it ever having
  been assigned, so it dies with an unbound-local error. -/
  | unboundLocal
deriving DecidableEq, Repr

/-- `RedBeatSchedulerEntry.load` (lines 263-274), parametrized by the
`HGET key meta` response.  The `except ResponseError` arm returns `{}`
on a WRONGTYPE classification but neither returns nor re-raises
otherwise: control falls through to `if not meta:` with the local
`meta` never assigned, which raises an unbound-local error. -/
def RedBeatSchedulerEntry.load (hgetRes : Except String (Option MetaDict)) : EntryLoadResult :=
  match hgetRes with
  | .ok none => .returns none
  | .ok (some m) => .returns (some m)
  | .error msg =>
    if containsWT msg then .returns none
    else .unboundLocal

/-- A materialized schedule entry (lines 239-261): the wrapped
`PeriodicTask` plus the mutable run state.  The entry's celery
`schedule` object exposes `remaining_estimate`; that computation lives
in the external celery library, so it is carried as an opaque function
from a last-run timestamp to a remaining duration. -/
structure RedBeatSchedulerEntry where
  task : PeriodicTask
  remaining : Int → Int
  total_run_count : Nat
  last_run_at : Int

/-- `self.name = self._task.name` (line 244). -/
def RedBeatSchedulerEntry.name (e : RedBeatSchedulerEntry) : String :=
  e.task.name

/-- `due_at` (lines 281-285): the absolute due timestamp
`last_run_at + schedule.remaining_estimate(last_run_at)`. -/
def RedBeatSchedulerEntry.due_at (e : RedBeatSchedulerEntry) : Int :=
  e.last_run_at + e.remaining e.last_run_at

/-- `RedBeatSchedulerEntry.save` (lines 307-312): `HSET` the current
run state under the `meta` sub-field of the entry's key. -/
def RedBeatSchedulerEntry.saveMeta (e : RedBeatSchedulerEntry) (st : StoreState) : StoreState :=
  { st with meta := setK st.meta e.name ⟨e.last_run_at, e.total_run_count⟩ }

/-- `RedBeatSchedulerEntry.next` (lines 287-292): set `last_run_at` to
the current time, bump `total_run_count`, persist the run state, and
return the (mutated) entry. -/
def RedBeatSchedulerEntry.next (e : RedBeatSchedulerEntry) (now : Int) (st : StoreState) :
    RedBeatSchedulerEntry × StoreState :=
  let e' := { e with last_run_at := now, total_run_count := e.total_run_count + 1 }
  (e', e'.saveMeta st)

/-- `is_due` (lines 296-300): a disabled task is never due and is
re-checked in 5.0 seconds; otherwise the celery base-class comparison
applies, carried here as the opaque `superDue` result. -/
def RedBeatSchedulerEntry.is_due (e : RedBeatSchedulerEntry) (superDue : Bool × Rat) :
    Bool × Rat :=
  if e.task.enabled = false then (false, 5)
  else superDue

/-- `RedBeatSchedulerEntry.from_key` (lines 276-279) against the
modelled store: load and rebuild the `PeriodicTask`, then run
`__init__` with no prior run state, which loads the `meta` sub-field
and defaults `total_run_count` to `0` and `last_run_at` to the current
time (`_default_now`).  `mkRem` supplies the celery
`remaining_estimate` function derived from the record's policy. -/
def RedBeatSchedulerEntry.from_key (px : String) (mkRem : TaskDict → Int → Int) (now : Int)
    (st : StoreState) (task_name : String) : Except PyErr RedBeatSchedulerEntry :=
  match PeriodicTask.loadS st task_name with
  | .error e => .error e
  | .ok d =>
    match PeriodicTask.from_dict px d with
    | .error e => .error e
    | .ok t =>
      let m := lookupF st.meta task_name
      .ok { task := t
            remaining := mkRem d
            total_run_count := (m.map MetaDict.total_run_count).getD 0
            last_run_at := (m.map MetaDict.last_run_at).getD now }

/-! ## The scheduler (`RedBeatScheduler`) -/

/-- `RedBeatScheduler.reserve` (lines 376-380): advance the entry via
`next` and `ZADD` the due-queue index with the new due time, returning
the advanced entry. -/
def RedBeatScheduler.reserve (now : Int) (e : RedBeatSchedulerEntry) (st : StoreState) :
    RedBeatSchedulerEntry × StoreState :=
  let (e', st') := e.next now st
  (e', { st' with sched := zadd st'.sched e'.name e'.due_at })

/-- `RedBeatScheduler.schedule_changed` (lines 382-385):
`SCARD deletes or SCARD updates`, truthy iff either set is
non-empty. -/
def RedBeatScheduler.schedule_changed (st : StoreState) : Bool :=
  !st.deletes.isEmpty || !st.updates.isEmpty

/-- The delete-drain loop of `update_schedule` (lines 388-392): `SPOP`
one name at a time and `ZREM` it from the index, until `SPOP` returns
a falsy value.  The worklist `ds` is the current content of the
pending-deletes set (the embedding pops from the head).  A popped
empty-string member is falsy in Python, so it ends the loop after
being consumed, without being removed from the index. -/
def drainDeletesAux (ds : List String) (st : StoreState) : StoreState :=
  match ds with
  | [] => st
  | d :: rest =>
    if d = "" then { st with deletes := rest }
    else drainDeletesAux rest { st with deletes := rest, sched := zrem st.sched d }

/-- The update-drain loop of `update_schedule` (lines 394-403): `SPOP`
one name at a time; rebuild its entry with `from_key` and `ZADD` the
index at the entry's current due time; a `KeyError` (record deleted
before the update was drained) is skipped; any other exception
propagates, aborting the loop. -/
def drainUpdatesAux (px : String) (mkRem : TaskDict → Int → Int) (now : Int)
    (us : List String) (st : StoreState) : StoreState × Option PyErr :=
  match us with
  | [] => (st, none)
  | u :: rest =>
    if u = "" then ({ st with updates := rest }, none)
    else
      let st1 := { st with updates := rest }
      match RedBeatSchedulerEntry.from_key px mkRem now st1 u with
      | .ok e => drainUpdatesAux px mkRem now rest { st1 with sched := zadd st1.sched e.name e.due_at }
      | .error (.keyError _) => drainUpdatesAux px mkRem now rest st1
      | .error err => (st1, some err)

/-- `RedBeatScheduler.update_schedule` (lines 387-403): drain the
pending-deletes set completely, then drain the pending-updates set. -/
def RedBeatScheduler.update_schedule (px : String) (mkRem : TaskDict → Int → Int) (now : Int)
    (st : StoreState) : StoreState × Option PyErr :=
  let st1 := drainDeletesAux st.deletes st
  drainUpdatesAux px mkRem now st1.updates st1

/-- The dict comprehension of `RedBeatScheduler.schedule` (line 412):
materialize each due name into an entry; a load failure propagates. -/
def dueEntries (px : String) (mkRem : TaskDict → Int → Int) (now : Int) (st : StoreState) :
    List String → Except PyErr (List (String × RedBeatSchedulerEntry))
  | [] => .ok []
  | k :: ks =>
    match RedBeatSchedulerEntry.from_key px mkRem now st k with
    | .error e => .error e
    | .ok e =>
      match dueEntries px mkRem now st ks with
      | .error e2 => .error e2
      | .ok l => .ok ((k, e) :: l)

/-- The `schedule` property (lines 405-412): reconcile when
`schedule_changed`, then `ZRANGEBYSCORE schedule 0 now` and return the
mapping name ↦ materialized entry.  The pair carries the store state
as left behind by the (possibly partial) reconciliation. -/
def RedBeatScheduler.schedule (px : String) (mkRem : TaskDict → Int → Int) (now : Int)
    (st : StoreState) : StoreState × Except PyErr (List (String × RedBeatSchedulerEntry)) :=
  let r :=
    if RedBeatScheduler.schedule_changed st then RedBeatScheduler.update_schedule px mkRem now st
    else (st, none)
  match r.2 with
  | some e => (r.1, .error e)
  | none => (r.1, dueEntries px mkRem now r.1 (zrangebyscore r.1.sched 0 now))

/-! ## Seeding from the configured schedule dictionary -/

/-- The `schedule` value of one configured beat entry, after
`celery.schedules.maybe_schedule`: either a plain interval schedule
(carrying `run_every.total_seconds()`) or a crontab. -/
inductive ScheduleSpec where
  | intervalSpec (secs : Int)
  | crontabSpec (c : CrontabP)
deriving DecidableEq, Repr

/-- One value of the configured `CELERYBEAT_SCHEDULE` mapping, with
the fields `from_entry` consumes.  A missing `schedule` key makes
`fields.pop('schedule')` raise `KeyError`. -/
structure EntryDict where
  task : String
  schedule : Option ScheduleSpec
  args : List String
  kwargs : List (String × String)
  queue : Option String
  exchange : Option String
  routing_key : Option String
deriving DecidableEq, Repr

/-- `RedBeatSchedulerEntry.from_entry` (lines 314-339): assemble the
wire dict for the task — prefixed name, the popped schedule flattened
to a `crontab` or `interval` field set (`every` clamped at zero),
args/kwargs defaults, routing options pulled out of `options` — then
`PeriodicTask.from_dict` it and materialize the entry exactly as
`from_key` does. -/
def RedBeatSchedulerEntry.from_entry (px : String) (mkRem : TaskDict → Int → Int) (now : Int)
    (st : StoreState) (nm : String) (entry : EntryDict) : Except PyErr RedBeatSchedulerEntry :=
  match entry.schedule with
  | none => .error (.keyError "schedule")
  | some sp =>
    let fields : TaskDict :=
      { name := px ++ nm
        task := entry.task
        interval := match sp with
          | .intervalSpec secs => some ⟨max secs 0, "seconds"⟩
          | .crontabSpec _ => none
        crontab := match sp with
          | .crontabSpec c => some c
          | .intervalSpec _ => none
        args := entry.args
        kwargs := entry.kwargs
        queue := entry.queue
        exchange := entry.exchange
        routing_key := entry.routing_key
        expires := none
        enabled := true
        description := none }
    match PeriodicTask.from_dict px fields with
    | .error e => .error e
    | .ok t =>
      let m := lookupF st.meta (px ++ nm)
      .ok { task := t
            remaining := mkRem fields
            total_run_count := (m.map MetaDict.total_run_count).getD 0
            last_run_at := (m.map MetaDict.last_run_at).getD now }

/-- `RedBeatScheduler.update_from_dict` (lines 364-374): for each
configured entry, build it with `from_entry`; on failure the exception
is logged — but the loop body continues with the loop variable `entry`
still bound to the raw configuration dict, so the following
`entry._task.save()` raises `AttributeError` (a dict has no `_task`
attribute) and the whole loop aborts.  On success, the task is saved,
its name is `SREM`-ed back out of pending-updates, and the index is
`ZADD`-ed at the entry's due time. -/
def RedBeatScheduler.update_from_dict (px : String) (mkRem : TaskDict → Int → Int) (now : Int)
    (items : List (String × EntryDict)) (st : StoreState) : StoreState × Option PyErr :=
  match items with
  | [] => (st, none)
  | (nm, ed) :: rest =>
    match RedBeatSchedulerEntry.from_entry px mkRem now st nm ed with
    | .error _ => (st, some .attributeError)
    | .ok e =>
      match e.task.save st with
      | (st1, some verr) => (st1, some verr)
      | (st1, none) =>
        let st2 := { st1 with updates := srem st1.updates e.name }
        let st3 := { st2 with sched := zadd st2.sched e.name e.due_at }
        RedBeatScheduler.update_from_dict px mkRem now rest st3

/-! ## Schedule-policy due computation (external to the repository) -/

/-- Modelled from the spec: the remaining-duration computation of the
schedule policies is delegated to the external `celery.schedules`
library — `src/redbeat/schedulers.py` only constructs the policy
objects (lines 98-100 and 122-128).  Per §4.1 the policy returns the
minimal remaining duration from the current time until the next due
instant and "must never return a non-positive remaining duration",
clamping at a minimum of zero. -/
def remaining_estimate (next_at now : Int) : Int :=
  max (next_at - now) 0

/-- Modelled from the spec: `Interval` computes
`next-due = last-run + every·period` with no calendar arithmetic
(§3, §4.1); the period name scales to seconds as
`datetime.timedelta` does. -/
def IntervalP.periodSeconds (p : String) : Int :=
  if p = "seconds" then 1
  else if p = "minutes" then 60
  else if p = "hours" then 3600
  else if p = "days" then 86400
  else if p = "weeks" then 604800
  else 0

/-- Modelled from the spec: the next due instant of an `Interval`
policy. -/
def IntervalP.next_at (i : IntervalP) (last_run_at : Int) : Int :=
  last_run_at + i.every * IntervalP.periodSeconds i.period

/-! ## Predicates and concrete fixtures -/

/-- A task violating the exactly-one-policy invariant: both schedule
policies set, or neither. -/
def BadPolicy (t : PeriodicTask) : Prop :=
  (t.interval.isSome ∧ t.crontab.isSome) ∨ (t.interval.isNone ∧ t.crontab.isNone)

instance (t : PeriodicTask) : Decidable (BadPolicy t) := by
  unfold BadPolicy
  infer_instance

/-- Every pending update whose record is present decodes to a task
with at least one schedule policy set (records written through `save`
always satisfy this, since `clean` ran first). -/
def WFUpdates (us : List String) (per : List (String × TaskDict)) : Prop :=
  ∀ n ∈ us, ((lookupF per n).all fun d => d.interval.isSome || d.crontab.isSome) = true

instance (us : List String) (per : List (String × TaskDict)) : Decidable (WFUpdates us per) := by
  unfold WFUpdates
  infer_instance

/-- Every stored record carries its own key as its `name` field
(`save` stores `to_dict t` — whose `name` is `t.name` — under the key
`t.name`, so this is an invariant of store states the code writes). -/
def SelfNamed (per : List (String × TaskDict)) : Prop :=
  ∀ p ∈ per, (p.2).name = p.1

instance (per : List (String × TaskDict)) : Decidable (SelfNamed per) := by
  unfold SelfNamed
  infer_instance

/-- A concrete key namespace. -/
def px0 : String := "redbeat:"

/-- A concrete stand-in for the external celery `remaining_estimate`
closure (30 seconds from any last-run time). -/
def mkRem0 : TaskDict → Int → Int := fun _ _ => 30

/-- A valid stored record fixture. -/
def dGood : TaskDict :=
  { name := "t", task := "jobs.t", interval := some ⟨30, "seconds"⟩, crontab := none
    args := [], kwargs := [], queue := none, exchange := none, routing_key := none
    expires := none, enabled := true, description := none }

/-- A valid in-memory task fixture. -/
def tW : PeriodicTask :=
  { name := "rb:w", task := "jobs.w", interval := some ⟨30, "seconds"⟩, crontab := none
    args := ["x"], kwargs := [("k", "v")], queue := some "q", exchange := none
    routing_key := none, expires := none, enabled := true, description := none }

/-- The empty store. -/
def st0 : StoreState :=
  { periodic := [], meta := [], deletes := [], updates := [], sched := [] }

/-- A store in the saved-then-deleted configuration: `rb:a` sits in
both pending sets, still has a stale index entry, and its record is
gone. -/
def stW : StoreState :=
  { periodic := [], meta := [], deletes := ["rb:a"], updates := ["rb:a"], sched := [("rb:a", 5)] }

/-- A quiescent store whose only index member has a negative (pre-epoch)
due timestamp. -/
def stC2 : StoreState :=
  { periodic := [("t", dGood)], meta := [], deletes := [], updates := [], sched := [("t", -1)] }

/-- A quiescent store with one index member due at time 3. -/
def stC2w : StoreState :=
  { periodic := [("t", dGood)], meta := [], deletes := [], updates := [], sched := [("t", 3)] }

/-- A configured beat entry with no `schedule` key. -/
def edBad : EntryDict :=
  { task := "jobs.bad", schedule := none, args := [], kwargs := [], queue := none
    exchange := none, routing_key := none }

/-- A well-formed configured beat entry. -/
def edGood : EntryDict :=
  { task := "jobs.good", schedule := some (.intervalSpec 30), args := [], kwargs := []
    queue := none, exchange := none, routing_key := none }

/-- A materialized entry whose backing record is disabled. -/
def eDis : RedBeatSchedulerEntry :=
  { task := { tW with enabled := false }, remaining := fun _ => 30
    total_run_count := 4, last_run_at := 100 }

/-! ## Association-list and set lemmas -/

theorem lookupF_setK_self {α : Type} (l : List (String × α)) (k : String) (v : α) :
    lookupF (setK l k v) k = some v := by
  simp [lookupF, setK, List.find?]

theorem lookupF_mem {α : Type} {l : List (String × α)} {k : String} {v : α}
    (h : lookupF l k = some v) : (k, v) ∈ l := by
  unfold lookupF at h
  rcases hf : l.find? (fun p => p.1 == k) with _ | p
  · rw [hf] at h
    simp at h
  · rw [hf] at h
    simp at h
    have hp := List.find?_some hf
    have hm := List.mem_of_find?_eq_some hf
    simp at hp
    rw [← hp, ← h]
    exact hm

theorem mem_sadd_self (l : List String) (n : String) : n ∈ sadd l n := by
  unfold sadd
  by_cases h : n ∈ l
  · simp [h]
  · simp [h]

theorem not_mem_srem_self (l : List String) (n : String) : n ∉ srem l n := by
  simp [srem, List.mem_filter]

theorem mem_znames_iff (l : List (String × Int)) (n : String) :
    n ∈ znames l ↔ ∃ s, (n, s) ∈ l := by
  constructor
  · intro h
    rcases List.mem_map.mp h with ⟨⟨a, b⟩, hp, he⟩
    simp only at he
    subst he
    exact ⟨b, hp⟩
  · rintro ⟨s, hs⟩
    exact List.mem_map.mpr ⟨(n, s), hs, rfl⟩

theorem mem_znames_eraseK (l : List (String × Int)) (k n : String) (h : n ≠ k) :
    n ∈ znames (eraseK l k) ↔ n ∈ znames l := by
  simp only [mem_znames_iff]
  constructor
  · rintro ⟨s, hs⟩
    exact ⟨s, (List.mem_filter.mp hs).1⟩
  · rintro ⟨s, hs⟩
    exact ⟨s, List.mem_filter.mpr ⟨hs, by simpa using h⟩⟩

theorem not_mem_znames_eraseK_self (l : List (String × Int)) (k : String) :
    k ∉ znames (eraseK l k) := by
  intro h
  rcases (mem_znames_iff _ _).mp h with ⟨s, hs⟩
  have := (List.mem_filter.mp hs).2
  simp at this

theorem znames_eraseK_subset (l : List (String × Int)) (k n : String)
    (h : n ∈ znames (eraseK l k)) : n ∈ znames l := by
  rcases (mem_znames_iff _ _).mp h with ⟨s, hs⟩
  exact (mem_znames_iff _ _).mpr ⟨s, (List.mem_filter.mp hs).1⟩

theorem mem_znames_zadd_self (l : List (String × Int)) (n : String) (s : Int) :
    n ∈ znames (zadd l n s) := by
  simp [zadd, setK, znames]

theorem mem_znames_zadd_of_mem (l : List (String × Int)) (m n : String) (s : Int)
    (h : m ∈ znames l) : m ∈ znames (zadd l n s) := by
  by_cases he : m = n
  · subst he
    exact mem_znames_zadd_self l m s
  · have : m ∈ znames (eraseK l n) := (mem_znames_eraseK l n m he).mpr h
    simp only [zadd, setK, znames, List.map_cons]
    exact List.mem_cons_of_mem _ this

theorem not_mem_znames_zadd (l : List (String × Int)) (m n : String) (s : Int)
    (hm : m ∉ znames l) (hne : m ≠ n) : m ∉ znames (zadd l n s) := by
  simp only [zadd, setK, znames, List.map_cons]
  intro h
  rcases List.mem_cons.mp h with h1 | h2
  · exact hne h1
  · exact hm (znames_eraseK_subset l n m h2)

theorem zscore_zadd_self (l : List (String × Int)) (n : String) (s : Int) :
    zscore (zadd l n s) n = some s := by
  simp [zadd, zscore]
  exact lookupF_setK_self l n s

theorem mem_zrangebyscore (l : List (String × Int)) (lo hi : Int) (n : String) :
    n ∈ zrangebyscore l lo hi ↔ ∃ s, (n, s) ∈ l ∧ lo ≤ s ∧ s ≤ hi := by
  unfold zrangebyscore
  constructor
  · intro h
    rcases List.mem_map.mp h with ⟨⟨a, b⟩, hp, he⟩
    simp only at he
    subst he
    have hf := List.mem_filter.mp hp
    exact ⟨b, hf.1, (of_decide_eq_true hf.2).1, (of_decide_eq_true hf.2).2⟩
  · rintro ⟨s, hs, h1, h2⟩
    exact List.mem_map.mpr ⟨(n, s), List.mem_filter.mpr ⟨hs, by simp [h1, h2]⟩, rfl⟩

/-! ## Basic facts about `clean`, `from_dict` and `load` -/

theorem clean_none_iff (t : PeriodicTask) : t.clean = none ↔ ¬ BadPolicy t := by
  rcases hi : t.interval with _ | i <;> rcases hc : t.crontab with _ | c <;>
    simp [PeriodicTask.clean, BadPolicy, hi, hc]

theorem clean_some_of_bad (t : PeriodicTask) (hb : BadPolicy t) :
    t.clean = some .validationError := by
  rcases hi : t.interval with _ | i <;> rcases hc : t.crontab with _ | c <;>
    simp [PeriodicTask.clean, BadPolicy, hi, hc] at hb ⊢

theorem from_dict_to_dict (px : String) (t : PeriodicTask) (h : ¬ BadPolicy t) :
    PeriodicTask.from_dict px t.to_dict = .ok t := by
  obtain ⟨nm, tk, iv, cr, ar, kw, qu, ex, rk, xp, en, de⟩ := t
  rcases iv with _ | i <;> rcases cr with _ | c
  · exact absurd (Or.inr ⟨rfl, rfl⟩) h
  · rfl
  · rfl
  · exact absurd (Or.inl ⟨rfl, rfl⟩) h

theorem loadS_ok_iff (st : StoreState) (u : String) (d : TaskDict) :
    PeriodicTask.loadS st u = .ok d ↔ lookupF st.periodic u = some d := by
  unfold PeriodicTask.loadS PeriodicTask.load
  rcases hl : lookupF st.periodic u with _ | d' <;> simp [hl]

theorem loadS_absent (st : StoreState) (u : String) (h : lookupF st.periodic u = none) :
    PeriodicTask.loadS st u = .error (.keyError u) := by
  unfold PeriodicTask.loadS PeriodicTask.load
  simp [h]

theorem from_dict_ok_name (px : String) (d : TaskDict) (t : PeriodicTask)
    (h : PeriodicTask.from_dict px d = .ok t) : t.name = d.name := by
  unfold PeriodicTask.from_dict at h
  rcases hc : d.crontab with _ | c <;> rcases hi : d.interval with _ | i <;>
    rw [hc, hi] at h <;> simp at h <;> simp [← h]

/-! ## Facts about `from_key` -/

theorem from_dict_ok_of_policy (px : String) (d : TaskDict)
    (h : (d.interval.isSome || d.crontab.isSome) = true) :
    ∃ t, PeriodicTask.from_dict px d = .ok t := by
  unfold PeriodicTask.from_dict
  rcases hc : d.crontab with _ | c <;> rcases hi : d.interval with _ | i <;>
    simp [hc, hi] at h ⊢

theorem from_key_absent (px : String) (mkRem : TaskDict → Int → Int) (now : Int)
    (st : StoreState) (u : String) (h : lookupF st.periodic u = none) :
    RedBeatSchedulerEntry.from_key px mkRem now st u = .error (.keyError u) := by
  unfold RedBeatSchedulerEntry.from_key
  rw [loadS_absent st u h]

theorem from_key_ok_of_present (px : String) (mkRem : TaskDict → Int → Int) (now : Int)
    (st : StoreState) (u : String) (d : TaskDict) (h : lookupF st.periodic u = some d)
    (hp : (d.interval.isSome || d.crontab.isSome) = true) :
    ∃ e, RedBeatSchedulerEntry.from_key px mkRem now st u = .ok e := by
  have hload : PeriodicTask.loadS st u = .ok d := (loadS_ok_iff st u d).mpr h
  rcases from_dict_ok_of_policy px d hp with ⟨t, ht⟩
  refine ⟨{ task := t, remaining := mkRem d
            total_run_count := ((lookupF st.meta u).map MetaDict.total_run_count).getD 0
            last_run_at := ((lookupF st.meta u).map MetaDict.last_run_at).getD now }, ?_⟩
  simp [RedBeatSchedulerEntry.from_key, hload, ht]

theorem from_key_cases (px : String) (mkRem : TaskDict → Int → Int) (now : Int)
    (st : StoreState) (u : String)
    (h : ((lookupF st.periodic u).all fun d => d.interval.isSome || d.crontab.isSome) = true) :
    (∃ e, RedBeatSchedulerEntry.from_key px mkRem now st u = .ok e) ∨
      RedBeatSchedulerEntry.from_key px mkRem now st u = .error (.keyError u) := by
  rcases hl : lookupF st.periodic u with _ | d
  · exact Or.inr (from_key_absent px mkRem now st u hl)
  · rw [hl] at h
    simp only [Option.all_some] at h
    exact Or.inl (from_key_ok_of_present px mkRem now st u d hl h)

theorem from_key_ok_facts (px : String) (mkRem : TaskDict → Int → Int) (now : Int)
    (st : StoreState) (u : String) (e : RedBeatSchedulerEntry) (hs : SelfNamed st.periodic)
    (h : RedBeatSchedulerEntry.from_key px mkRem now st u = .ok e) :
    e.name = u ∧ ∃ d, lookupF st.periodic u = some d := by
  unfold RedBeatSchedulerEntry.from_key at h
  split at h
  · cases h
  · rename_i d hl
    split at h
    · cases h
    · rename_i t hf
      simp only [Except.ok.injEq] at h
      have hd : lookupF st.periodic u = some d := (loadS_ok_iff st u d).mp hl
      have hnm : d.name = u := hs (u, d) (lookupF_mem hd)
      refine ⟨?_, d, hd⟩
      rw [← h]
      simp [RedBeatSchedulerEntry.name, from_dict_ok_name px d t hf, hnm]

/-! ## Facts about the delete drain -/

theorem dd_periodic (ds : List String) : ∀ st : StoreState,
    (drainDeletesAux ds st).periodic = st.periodic := by
  induction ds with
  | nil => intro st; rfl
  | cons d rest ih =>
    intro st
    unfold drainDeletesAux
    by_cases h : d = "" <;> simp [h, ih]

theorem dd_meta (ds : List String) : ∀ st : StoreState,
    (drainDeletesAux ds st).meta = st.meta := by
  induction ds with
  | nil => intro st; rfl
  | cons d rest ih =>
    intro st
    unfold drainDeletesAux
    by_cases h : d = "" <;> simp [h, ih]

theorem dd_updates (ds : List String) : ∀ st : StoreState,
    (drainDeletesAux ds st).updates = st.updates := by
  induction ds with
  | nil => intro st; rfl
  | cons d rest ih =>
    intro st
    unfold drainDeletesAux
    by_cases h : d = "" <;> simp [h, ih]

theorem dd_deletes_nil (ds : List String) : ∀ st : StoreState, "" ∉ ds →
    st.deletes = ds → (drainDeletesAux ds st).deletes = [] := by
  induction ds with
  | nil => intro st _ hsync; exact hsync
  | cons d rest ih =>
    intro st hne hsync
    have hd : ¬ d = "" := fun he => hne (he ▸ List.mem_cons_self d rest)
    unfold drainDeletesAux
    rw [if_neg hd]
    exact ih _ (fun hx => hne (List.mem_cons_of_mem d hx)) rfl

theorem dd_sched_subset (ds : List String) : ∀ (st : StoreState) (n : String),
    n ∈ znames (drainDeletesAux ds st).sched → n ∈ znames st.sched := by
  induction ds with
  | nil => intro st n h; exact h
  | cons d rest ih =>
    intro st n h
    unfold drainDeletesAux at h
    by_cases hd : d = ""
    · rw [if_pos hd] at h
      exact h
    · rw [if_neg hd] at h
      exact znames_eraseK_subset _ _ _ (ih _ n h)

theorem dd_removed (ds : List String) : ∀ (st : StoreState) (n : String), "" ∉ ds →
    n ∈ ds → n ∉ znames (drainDeletesAux ds st).sched := by
  induction ds with
  | nil => intro st n _ hn; cases hn
  | cons d rest ih =>
    intro st n hne hn
    have hd : ¬ d = "" := fun he => hne (he ▸ List.mem_cons_self d rest)
    unfold drainDeletesAux
    rw [if_neg hd]
    rcases List.mem_cons.mp hn with he | hr
    · subst he
      intro hmem
      exact not_mem_znames_eraseK_self _ n (dd_sched_subset rest _ n hmem)
    · exact ih _ n (fun hx => hne (List.mem_cons_of_mem d hx)) hr

/-! ## Facts about the update drain -/

theorem du_frame (px : String) (mkRem : TaskDict → Int → Int) (now : Int)
    (us : List String) : ∀ st : StoreState,
    (drainUpdatesAux px mkRem now us st).1.periodic = st.periodic ∧
    (drainUpdatesAux px mkRem now us st).1.meta = st.meta ∧
    (drainUpdatesAux px mkRem now us st).1.deletes = st.deletes := by
  induction us with
  | nil => intro st; exact ⟨rfl, rfl, rfl⟩
  | cons u rest ih =>
    intro st
    unfold drainUpdatesAux
    by_cases hu : u = ""
    · simp [hu]
    · rw [if_neg hu]
      rcases hfk : RedBeatSchedulerEntry.from_key px mkRem now { st with updates := rest } u
        with er | e
      · rcases er <;> simp only [hfk] <;> first | exact ih _ | exact ⟨by trivial, by trivial, by trivial⟩
      · simp only [hfk]
        exact ih _

theorem du_ok (px : String) (mkRem : TaskDict → Int → Int) (now : Int)
    (us : List String) : ∀ st : StoreState, "" ∉ us → WFUpdates us st.periodic →
    (drainUpdatesAux px mkRem now us st).2 = none ∧
    (st.updates = us → (drainUpdatesAux px mkRem now us st).1.updates = []) := by
  induction us with
  | nil =>
    intro st _ _
    exact ⟨rfl, fun h => h⟩
  | cons u rest ih =>
    intro st hne hwf
    have hu : ¬ u = "" := fun he => hne (he ▸ List.mem_cons_self u rest)
    have hne' : "" ∉ rest := fun hx => hne (List.mem_cons_of_mem u hx)
    have hwf' : ∀ st' : StoreState, st'.periodic = st.periodic → WFUpdates rest st'.periodic :=
      fun st' hp n hn => hp ▸ hwf n (List.mem_cons_of_mem u hn)
    unfold drainUpdatesAux
    rw [if_neg hu]
    rcases from_key_cases px mkRem now { st with updates := rest } u (hwf u (List.mem_cons_self u rest)) with ⟨e, hfk⟩ | hfk
    · simp only [hfk]
      rcases ih { st with updates := rest, sched := zadd st.sched e.name e.due_at } hne'
        (hwf' _ rfl) with ⟨ha, hb⟩
      exact ⟨ha, fun _ => hb rfl⟩
    · simp only [hfk]
      rcases ih { st with updates := rest } hne' (hwf' _ rfl) with ⟨ha, hb⟩
      exact ⟨ha, fun _ => hb rfl⟩

theorem du_preserve_mem (px : String) (mkRem : TaskDict → Int → Int) (now : Int)
    (us : List String) : ∀ (st : StoreState) (n : String), n ∈ znames st.sched →
    n ∈ znames (drainUpdatesAux px mkRem now us st).1.sched := by
  induction us with
  | nil => intro st n h; exact h
  | cons u rest ih =>
    intro st n h
    unfold drainUpdatesAux
    by_cases hu : u = ""
    · simpa [hu] using h
    · rw [if_neg hu]
      rcases hfk : RedBeatSchedulerEntry.from_key px mkRem now { st with updates := rest } u
        with er | e
      · rcases er <;> simp [hfk] <;> first | exact ih _ n h | exact h
      · simp only [hfk]
        exact ih _ n (mem_znames_zadd_of_mem _ _ _ _ h)

theorem du_preserve_absent (px : String) (mkRem : TaskDict → Int → Int) (now : Int)
    (us : List String) : ∀ (st : StoreState) (n : String), SelfNamed st.periodic →
    n ∉ znames st.sched → (n ∉ us ∨ lookupF st.periodic n = none) →
    n ∉ znames (drainUpdatesAux px mkRem now us st).1.sched := by
  induction us with
  | nil => intro st n _ h _; exact h
  | cons u rest ih =>
    intro st n hs h hd
    unfold drainUpdatesAux
    by_cases hu : u = ""
    · simpa [hu] using h
    · rw [if_neg hu]
      rcases hfk : RedBeatSchedulerEntry.from_key px mkRem now { st with updates := rest } u
        with er | e
      · rcases er <;> simp [hfk] <;>
          first
          | exact ih _ n hs h (hd.imp (fun hl hx => hl (List.mem_cons_of_mem u hx)) id)
          | exact h
      · simp only [hfk]
        rcases from_key_ok_facts px mkRem now _ u e hs hfk with ⟨hen, d, hld⟩
        have hun : u ≠ n := by
          rcases hd with hl | hr
          · exact fun he => hl (he ▸ List.mem_cons_self u rest)
          · intro he
            rw [he, hr] at hld
            cases hld
        refine ih _ n hs ?_ (hd.imp (fun hl hx => hl (List.mem_cons_of_mem u hx)) id)
        rw [hen]
        exact not_mem_znames_zadd _ n u _ h (fun he => hun he.symm)

theorem du_present (px : String) (mkRem : TaskDict → Int → Int) (now : Int)
    (us : List String) : ∀ (st : StoreState) (n : String) (d : TaskDict), "" ∉ us →
    WFUpdates us st.periodic → SelfNamed st.periodic → n ∈ us →
    lookupF st.periodic n = some d →
    n ∈ znames (drainUpdatesAux px mkRem now us st).1.sched := by
  induction us with
  | nil => intro st n d _ _ _ hn _; cases hn
  | cons u rest ih =>
    intro st n d hne hwf hs hn hld
    have hu : ¬ u = "" := fun he => hne (he ▸ List.mem_cons_self u rest)
    have hne' : "" ∉ rest := fun hx => hne (List.mem_cons_of_mem u hx)
    unfold drainUpdatesAux
    rw [if_neg hu]
    rcases from_key_cases px mkRem now { st with updates := rest } u
        (hwf u (List.mem_cons_self u rest)) with ⟨e, hfk⟩ | hfk
    · simp only [hfk]
      rcases List.mem_cons.mp hn with he | hr
      · subst he
        rcases from_key_ok_facts px mkRem now _ n e hs hfk with ⟨hen, _⟩
        apply du_preserve_mem
        rw [hen]
        exact mem_znames_zadd_self _ n _
      · exact ih _ n d hne' (fun m hm => hwf m (List.mem_cons_of_mem u hm)) hs hr hld
    · simp only [hfk]
      rcases List.mem_cons.mp hn with he | hr
      · subst he
        have hp : (d.interval.isSome || d.crontab.isSome) = true := by
          have hw := hwf n hn
          rw [hld] at hw
          simpa using hw
        rcases from_key_ok_of_present px mkRem now { st with updates := rest } n d hld hp
          with ⟨e, hok⟩
        rw [hok] at hfk
        cases hfk
      · exact ih _ n d hne' (fun m hm => hwf m (List.mem_cons_of_mem u hm)) hs hr hld

/-! ## Facts about `update_schedule` and `schedule` -/

theorem update_schedule_core (px : String) (mkRem : TaskDict → Int → Int) (now : Int)
    (st : StoreState) (h1 : "" ∉ st.deletes) (h2 : "" ∉ st.updates)
    (h3 : WFUpdates st.updates st.periodic) (_h4 : SelfNamed st.periodic) :
    (RedBeatScheduler.update_schedule px mkRem now st).2 = none ∧
    (RedBeatScheduler.update_schedule px mkRem now st).1.deletes = [] ∧
    (RedBeatScheduler.update_schedule px mkRem now st).1.updates = [] := by
  simp only [RedBeatScheduler.update_schedule]
  have hp1 : (drainDeletesAux st.deletes st).periodic = st.periodic := dd_periodic _ _
  have hu1 : (drainDeletesAux st.deletes st).updates = st.updates := dd_updates _ _
  have hd1 : (drainDeletesAux st.deletes st).deletes = [] := dd_deletes_nil _ _ h1 rfl
  have hne1 : "" ∉ (drainDeletesAux st.deletes st).updates := by rw [hu1]; exact h2
  have hwf1 : WFUpdates (drainDeletesAux st.deletes st).updates
      (drainDeletesAux st.deletes st).periodic := by rw [hu1, hp1]; exact h3
  have hok := du_ok px mkRem now (drainDeletesAux st.deletes st).updates
    (drainDeletesAux st.deletes st) hne1 hwf1
  have hfr := du_frame px mkRem now (drainDeletesAux st.deletes st).updates
    (drainDeletesAux st.deletes st)
  exact ⟨hok.1, by rw [hfr.2.2, hd1], hok.2 rfl⟩

theorem schedule_changed_false_iff (st : StoreState) :
    RedBeatScheduler.schedule_changed st = false ↔ (st.deletes = [] ∧ st.updates = []) := by
  cases hd : st.deletes <;> cases hu : st.updates <;>
    simp [RedBeatScheduler.schedule_changed, hd, hu]

theorem dueEntries_ok_names (px : String) (mkRem : TaskDict → Int → Int) (now : Int)
    (st : StoreState) (ks : List String) : ∀ l,
    dueEntries px mkRem now st ks = .ok l → l.map Prod.fst = ks := by
  induction ks with
  | nil =>
    intro l h
    unfold dueEntries at h
    simp only [Except.ok.injEq] at h
    rw [← h]
    rfl
  | cons k ks ih =>
    intro l h
    unfold dueEntries at h
    split at h
    · cases h
    · rename_i e _
      split at h
      · cases h
      · rename_i l2 hrec
        simp only [Except.ok.injEq] at h
        rw [← h]
        simp [ih l2 hrec]

/-! ## Claim theorems: reconciliation -/

/-- C4: one `update_schedule` run consumes the whole pending-deletes
set (removing each name from the index) before consuming any pending
update; an update whose record no longer loads is skipped; in
particular a record saved then deleted before reconciliation ends up
absent from the index and from both pending sets, and loading it fails
with `KeyError`.  A name in both sets whose record still exists is
re-added by the later update drain, witnessing the deletes-first
order.  (Hypotheses: pending names are non-empty strings — `SPOP` of a
falsy member would end the Python `while` loop early — and the store
satisfies the invariants `save` maintains: stored records carry their
own key as `name` and decode to at least one policy.) -/
theorem update_schedule_drains (px : String) (mkRem : TaskDict → Int → Int) (now : Int)
    (st : StoreState) (h1 : "" ∉ st.deletes) (h2 : "" ∉ st.updates)
    (h3 : WFUpdates st.updates st.periodic) (h4 : SelfNamed st.periodic) :
    (RedBeatScheduler.update_schedule px mkRem now st).2 = none ∧
    (RedBeatScheduler.update_schedule px mkRem now st).1.deletes = [] ∧
    (RedBeatScheduler.update_schedule px mkRem now st).1.updates = [] ∧
    (∀ n ∈ st.deletes, n ∉ st.updates →
      n ∉ znames (RedBeatScheduler.update_schedule px mkRem now st).1.sched) ∧
    (∀ n ∈ st.deletes, ∀ d : TaskDict, n ∈ st.updates → lookupF st.periodic n = some d →
      n ∈ znames (RedBeatScheduler.update_schedule px mkRem now st).1.sched) ∧
    (∀ n ∈ st.deletes, n ∈ st.updates → lookupF st.periodic n = none →
      n ∉ znames (RedBeatScheduler.update_schedule px mkRem now st).1.sched ∧
      PeriodicTask.loadS (RedBeatScheduler.update_schedule px mkRem now st).1 n =
        .error (.keyError n)) := by
  rcases update_schedule_core px mkRem now st h1 h2 h3 h4 with ⟨hc1, hc2, hc3⟩
  have hp1 : (drainDeletesAux st.deletes st).periodic = st.periodic := dd_periodic _ _
  have hu1 : (drainDeletesAux st.deletes st).updates = st.updates := dd_updates _ _
  have hne1 : "" ∉ (drainDeletesAux st.deletes st).updates := by rw [hu1]; exact h2
  have hwf1 : WFUpdates (drainDeletesAux st.deletes st).updates
      (drainDeletesAux st.deletes st).periodic := by rw [hu1, hp1]; exact h3
  have hs1 : SelfNamed (drainDeletesAux st.deletes st).periodic := by rw [hp1]; exact h4
  have hfr := du_frame px mkRem now (drainDeletesAux st.deletes st).updates
    (drainDeletesAux st.deletes st)
  refine ⟨hc1, hc2, hc3, ?_, ?_, ?_⟩
  · intro n hnd hnu
    simp only [RedBeatScheduler.update_schedule]
    exact du_preserve_absent px mkRem now _ _ n hs1 (dd_removed _ _ n h1 hnd)
      (Or.inl (by rw [hu1]; exact hnu))
  · intro n hnd d hnu hld
    simp only [RedBeatScheduler.update_schedule]
    exact du_present px mkRem now _ _ n d hne1 hwf1 hs1 (by rw [hu1]; exact hnu)
      (by rw [hp1]; exact hld)
  · intro n hnd hnu hlnone
    constructor
    · simp only [RedBeatScheduler.update_schedule]
      exact du_preserve_absent px mkRem now _ _ n hs1 (dd_removed _ _ n h1 hnd)
        (Or.inr (by rw [hp1]; exact hlnone))
    · apply loadS_absent
      simp only [RedBeatScheduler.update_schedule]
      rw [hfr.1, hp1]
      exact hlnone

/-- C4 witness: `rb:a` was saved then deleted (it sits in both pending
sets with no record left); after one reconciliation it is gone from
the index and both sets, and loading it raises `KeyError`. -/
theorem update_schedule_drains_witness :
    (RedBeatScheduler.update_schedule px0 mkRem0 0 stW).1.deletes = [] ∧
    (RedBeatScheduler.update_schedule px0 mkRem0 0 stW).1.updates = [] ∧
    "rb:a" ∉ znames (RedBeatScheduler.update_schedule px0 mkRem0 0 stW).1.sched ∧
    PeriodicTask.loadS (RedBeatScheduler.update_schedule px0 mkRem0 0 stW).1 "rb:a" =
      .error (.keyError "rb:a") := by
  have h := update_schedule_drains px0 mkRem0 0 stW (by decide) (by decide) (by decide)
    (by decide)
  have h6 := h.2.2.2.2.2 "rb:a" (by decide) (by decide) (by decide)
  exact ⟨h.2.1, h.2.2.1, h6.1, h6.2⟩

/-- C2 (amended): the tick-level `schedule` query reconciles iff a
pending set is non-empty, and the returned mapping's domain is exactly
the index members whose due timestamp lies between zero and the
current time inclusive (the range query's lower bound is `0`, so a
negative due timestamp is excluded); two members sharing a due
timestamp in that range both appear. -/
theorem schedule_due_query (px : String) (mkRem : TaskDict → Int → Int) (now : Int)
    (st : StoreState) (h1 : "" ∉ st.deletes) (h2 : "" ∉ st.updates)
    (h3 : WFUpdates st.updates st.periodic) (h4 : SelfNamed st.periodic) :
    (st.deletes = [] → st.updates = [] →
      (RedBeatScheduler.schedule px mkRem now st).1 = st) ∧
    (st.deletes ≠ [] ∨ st.updates ≠ [] →
      (RedBeatScheduler.schedule px mkRem now st).1.deletes = [] ∧
      (RedBeatScheduler.schedule px mkRem now st).1.updates = []) ∧
    (∀ l, (RedBeatScheduler.schedule px mkRem now st).2 = .ok l → ∀ n,
      (n ∈ l.map Prod.fst ↔
        ∃ s, (n, s) ∈ (RedBeatScheduler.schedule px mkRem now st).1.sched ∧
          0 ≤ s ∧ s ≤ now)) ∧
    (∀ l, (RedBeatScheduler.schedule px mkRem now st).2 = .ok l → ∀ n1 n2 s,
      (n1, s) ∈ (RedBeatScheduler.schedule px mkRem now st).1.sched →
      (n2, s) ∈ (RedBeatScheduler.schedule px mkRem now st).1.sched →
      0 ≤ s → s ≤ now → n1 ∈ l.map Prod.fst ∧ n2 ∈ l.map Prod.fst) := by
  have key : ∀ (b : StoreState) (l : List (String × RedBeatSchedulerEntry)),
      dueEntries px mkRem now b (zrangebyscore b.sched 0 now) = .ok l → ∀ n,
      (n ∈ l.map Prod.fst ↔ ∃ s, (n, s) ∈ b.sched ∧ 0 ≤ s ∧ s ≤ now) := by
    intro b l hl n
    rw [dueEntries_ok_names px mkRem now b _ l hl]
    exact mem_zrangebyscore b.sched 0 now n
  by_cases hch : RedBeatScheduler.schedule_changed st = false
  · have hemp := (schedule_changed_false_iff st).mp hch
    have hsch : RedBeatScheduler.schedule px mkRem now st =
        (st, dueEntries px mkRem now st (zrangebyscore st.sched 0 now)) := by
      simp [RedBeatScheduler.schedule, hch]
    refine ⟨fun _ _ => by rw [hsch], fun hne => ?_, fun l hl n => ?_, fun l hl n1 n2 s m1 m2 hs0 hsn => ?_⟩
    · rcases hne with h | h
      · exact absurd hemp.1 h
      · exact absurd hemp.2 h
    · rw [hsch] at hl ⊢
      exact key st l hl n
    · rw [hsch] at hl m1 m2
      exact ⟨(key st l hl n1).mpr ⟨s, m1, hs0, hsn⟩, (key st l hl n2).mpr ⟨s, m2, hs0, hsn⟩⟩
  · have hch' : RedBeatScheduler.schedule_changed st = true := by
      revert hch
      cases RedBeatScheduler.schedule_changed st <;> simp
    rcases update_schedule_core px mkRem now st h1 h2 h3 h4 with ⟨hc1, hc2, hc3⟩
    have hsch : RedBeatScheduler.schedule px mkRem now st =
        ((RedBeatScheduler.update_schedule px mkRem now st).1,
          dueEntries px mkRem now (RedBeatScheduler.update_schedule px mkRem now st).1
            (zrangebyscore (RedBeatScheduler.update_schedule px mkRem now st).1.sched 0 now)) := by
      simp [RedBeatScheduler.schedule, hch', hc1]
    refine ⟨fun hd hu => ?_, fun _ => ?_, fun l hl n => ?_, fun l hl n1 n2 s m1 m2 hs0 hsn => ?_⟩
    · exact absurd ((schedule_changed_false_iff st).mpr ⟨hd, hu⟩) (by rw [hch']; simp)
    · rw [hsch]
      exact ⟨hc2, hc3⟩
    · rw [hsch] at hl ⊢
      exact key _ l hl n
    · rw [hsch] at hl m1 m2
      exact ⟨(key _ l hl n1).mpr ⟨s, m1, hs0, hsn⟩, (key _ l hl n2).mpr ⟨s, m2, hs0, hsn⟩⟩

/-- C2 witness: a quiescent store (both pending sets empty) is left
untouched by the schedule query. -/
theorem schedule_due_query_witness :
    (RedBeatScheduler.schedule px0 mkRem0 10 stC2w).1 = stC2w :=
  (schedule_due_query px0 mkRem0 10 stC2w (by decide) (by decide) (by decide)
    (by decide)).1 rfl rfl

/-- C2 counterexample: the index member `t` has due timestamp `-1`,
which is at-or-before the current time `0`; the claim as stated
requires it in the returned mapping, but the range query's lower bound
of `0` excludes it and the query returns the empty mapping. -/
theorem schedule_due_query_cex :
    (RedBeatScheduler.schedule px0 mkRem0 0 stC2).2 = .ok [] ∧
    ("t", (-1 : Int)) ∈ stC2.sched ∧ ((-1 : Int) ≤ 0) := by
  refine ⟨rfl, by decide, by decide⟩

/-! ## Claim theorems: record save/load -/

/-- C1: `save` raises `ValidationError` when the record has both an
interval and a crontab policy, or neither, and then makes no store
writes; with exactly one policy set it removes the name from
pending-deletes, writes the serialized definition under the `periodic`
sub-field of the record's key, and adds the name to pending-updates. -/
theorem save_exactly_one_policy (t : PeriodicTask) (st : StoreState) :
    (BadPolicy t → t.save st = (st, some .validationError)) ∧
    (¬ BadPolicy t →
      (t.save st).2 = none ∧
      t.name ∉ (t.save st).1.deletes ∧
      lookupF (t.save st).1.periodic t.name = some t.to_dict ∧
      t.name ∈ (t.save st).1.updates ∧
      (t.save st).1.meta = st.meta ∧ (t.save st).1.sched = st.sched) := by
  constructor
  · intro hb
    simp [PeriodicTask.save, clean_some_of_bad t hb]
  · intro hg
    simp only [PeriodicTask.save, (clean_none_iff t).mpr hg]
    exact ⟨by trivial, not_mem_srem_self _ _, lookupF_setK_self _ _ _, mem_sadd_self _ _,
      by trivial, by trivial⟩

/-- C1 witness: a record with exactly an interval policy is persisted
and queued as an update; a record with both policies set fails
validation and leaves the store untouched. -/
theorem save_exactly_one_policy_witness :
    lookupF ((tW.save st0).1).periodic tW.name = some tW.to_dict ∧
    tW.name ∈ ((tW.save st0).1).updates ∧
    ({ tW with crontab := some ⟨"*", "*", "*", "*", "*"⟩ }.save st0) =
      (st0, some .validationError) := by
  have hg := (save_exactly_one_policy tW st0).2 (by decide)
  have hb := (save_exactly_one_policy { tW with crontab := some ⟨"*", "*", "*", "*", "*"⟩ } st0).1
    (by decide)
  exact ⟨hg.2.2.1, hg.2.2.2.1, hb⟩

/-- C5: saving a valid record and loading it back by name reproduces
the task target, args, kwargs, routing options, and the
schedule-policy fields. -/
theorem save_then_load_round_trip (px : String) (t : PeriodicTask) (st : StoreState)
    (h : ¬ BadPolicy t) :
    ∃ t2, PeriodicTask.from_keyS px (t.save st).1 t.name = .ok t2 ∧
      t2.task = t.task ∧ t2.args = t.args ∧ t2.kwargs = t.kwargs ∧
      t2.queue = t.queue ∧ t2.exchange = t.exchange ∧ t2.routing_key = t.routing_key ∧
      t2.interval = t.interval ∧ t2.crontab = t.crontab := by
  refine ⟨t, ?_, rfl, rfl, rfl, rfl, rfl, rfl, rfl, rfl⟩
  have hl : lookupF ((t.save st).1).periodic t.name = some t.to_dict := by
    simp only [PeriodicTask.save, (clean_none_iff t).mpr h]
    exact lookupF_setK_self _ _ _
  unfold PeriodicTask.from_keyS PeriodicTask.loadS PeriodicTask.load
  rw [hl]
  simpa using from_dict_to_dict px t h

/-- C5 witness: the round trip at a concrete valid record. -/
theorem save_then_load_round_trip_witness :
    ∃ t2, PeriodicTask.from_keyS px0 (tW.save st0).1 tW.name = .ok t2 ∧
      t2.task = tW.task ∧ t2.args = tW.args ∧ t2.kwargs = tW.kwargs ∧
      t2.queue = tW.queue ∧ t2.exchange = tW.exchange ∧ t2.routing_key = tW.routing_key ∧
      t2.interval = tW.interval ∧ t2.crontab = tW.crontab :=
  save_then_load_round_trip px0 tW st0 (by decide)

/-- C6: `PeriodicTask.load` raises `KeyError(task_name)` whenever the
key or its `periodic` sub-field is empty; a WRONGTYPE `ResponseError`
makes it fall back to the bare key; any other store error is
re-raised. -/
theorem load_error_handling (task_name : String) :
    (∀ g, PeriodicTask.load task_name (.ok none) g = .error (.keyError task_name)) ∧
    (∀ msg g, containsWT msg = false →
        PeriodicTask.load task_name (.error msg) g = .error (.responseError msg)) ∧
    (∀ msg, containsWT msg = true →
        PeriodicTask.load task_name (.error msg) (.ok none) = .error (.keyError task_name)) ∧
    (∀ msg d, containsWT msg = true →
        PeriodicTask.load task_name (.error msg) (.ok (some d)) = .ok d) ∧
    (∀ msg m2, containsWT msg = true →
        PeriodicTask.load task_name (.error msg) (.error m2) = .error (.responseError m2)) ∧
    (∀ d g, PeriodicTask.load task_name (.ok (some d)) g = .ok d) := by
  refine ⟨fun g => rfl, fun msg g h => ?_, fun msg h => ?_, fun msg d h => ?_,
    fun msg m2 h => ?_, fun d g => rfl⟩ <;> simp [PeriodicTask.load, h]

/-- C6 witness: the three classifications at concrete store
responses. -/
theorem load_error_handling_witness :
    PeriodicTask.load "rb:x" (.ok none) (.ok none) = .error (.keyError "rb:x") ∧
    PeriodicTask.load "rb:x" (.error "ERR busy") (.ok none) =
      .error (.responseError "ERR busy") ∧
    PeriodicTask.load "rb:x" (.error "WRONGTYPE Operation against a key") (.ok (some dGood)) =
      .ok dGood := by
  have h := load_error_handling "rb:x"
  exact ⟨h.1 _, h.2.1 "ERR busy" _ (by decide), h.2.2.2.1 _ dGood (by decide)⟩

/-! ## Claim theorems: entries -/

/-- C3: `reserve` increments the run count by one, stamps
`last_run_at` with the current time, persists the new run state under
the entry's key, upserts the index at the newly computed due time, and
returns the advanced entry. -/
theorem reserve_advances (now : Int) (e : RedBeatSchedulerEntry) (st : StoreState) :
    (RedBeatScheduler.reserve now e st).1.total_run_count = e.total_run_count + 1 ∧
    (RedBeatScheduler.reserve now e st).1.last_run_at = now ∧
    (RedBeatScheduler.reserve now e st).1.task = e.task ∧
    (RedBeatScheduler.reserve now e st).1.remaining = e.remaining ∧
    lookupF (RedBeatScheduler.reserve now e st).2.meta e.name =
      some ⟨now, e.total_run_count + 1⟩ ∧
    zscore (RedBeatScheduler.reserve now e st).2.sched e.name =
      some ((RedBeatScheduler.reserve now e st).1.due_at) ∧
    (RedBeatScheduler.reserve now e st).1.due_at = now + e.remaining now := by
  refine ⟨rfl, rfl, rfl, rfl, ?_, ?_, rfl⟩
  · exact lookupF_setK_self _ _ _
  · exact zscore_zadd_self _ _ _

/-- C9: a disabled entry is never due and is re-checked after a fixed
5.0-second delay, whatever its run state and the elapsed time. -/
theorem is_due_disabled (e : RedBeatSchedulerEntry) (superDue : Bool × Rat)
    (h : e.task.enabled = false) :
    e.is_due superDue = (false, 5) := by
  simp [RedBeatSchedulerEntry.is_due, h]

/-- C9 witness: a disabled entry with elapsed run state, even when the
base-class comparison would say due-now. -/
theorem is_due_disabled_witness : eDis.is_due (true, 0) = (false, 5) :=
  is_due_disabled eDis (true, 0) rfl

/-- C10: when the `meta` read raises a store `ResponseError` without
`WRONGTYPE` in its text, `RedBeatSchedulerEntry.load` neither returns
nor re-raises: it falls into the unassigned-local read and dies with
an unbound-local error. -/
theorem entry_load_unbound_local (msg : String) (h : containsWT msg = false) :
    RedBeatSchedulerEntry.load (.error msg) = .unboundLocal ∧
    (∀ m, RedBeatSchedulerEntry.load (.error msg) ≠ .returns m) ∧
    (∀ s, RedBeatSchedulerEntry.load (.error msg) ≠ .raised s) := by
  have h1 : RedBeatSchedulerEntry.load (.error msg) = .unboundLocal := by
    simp [RedBeatSchedulerEntry.load, h]
  exact ⟨h1, fun m => by simp [h1], fun s => by simp [h1]⟩

/-- C10 witness: a non-WRONGTYPE store error crashes the run-state
load with the unbound-local outcome. -/
theorem entry_load_unbound_local_witness :
    containsWT "ERR unknown command" = false ∧
    RedBeatSchedulerEntry.load (.error "ERR unknown command") = .unboundLocal :=
  ⟨by decide, (entry_load_unbound_local "ERR unknown command" (by decide)).1⟩

/-! ## Claim theorems: schedule policies -/

/-- C8 (amended): the spec-modelled `remaining_estimate` is always
non-negative, and strictly positive when the current time lies before
the next matching instant — for the interval next-due computation and
for any crontab next matching instant (strictly after the last run). -/
theorem remaining_estimate_clamped_positive (i : IntervalP) (last now cnext : Int)
    (_hc : last < cnext) :
    0 ≤ remaining_estimate (i.next_at last) now ∧
    (now < i.next_at last → 0 < remaining_estimate (i.next_at last) now) ∧
    0 ≤ remaining_estimate cnext now ∧
    (now < cnext → 0 < remaining_estimate cnext now) := by
  unfold remaining_estimate
  refine ⟨le_max_right _ _, fun h => ?_, le_max_right _ _, fun h => ?_⟩
  · exact lt_max_of_lt_left (by omega)
  · exact lt_max_of_lt_left (by omega)

/-- C8 witness: a 30-second interval evaluated before its next due
instant, and a crontab instant still ahead of the clock. -/
theorem remaining_estimate_clamped_positive_witness :
    0 ≤ remaining_estimate (IntervalP.next_at ⟨30, "seconds"⟩ 0) 10 ∧
    0 < remaining_estimate (IntervalP.next_at ⟨30, "seconds"⟩ 0) 10 ∧
    0 < remaining_estimate 60 10 := by
  have h := remaining_estimate_clamped_positive ⟨30, "seconds"⟩ 0 10 60 (by decide)
  exact ⟨h.1, h.2.1 (by decide), h.2.2.2 (by decide)⟩

/-- C8 counterexample: with the interval policy `every 30 seconds` and
`last_run_at = 0`, the next matching instant is 30, strictly after the
last run; yet at current time 100 the remaining estimate is 0, not
strictly positive — refuting positivity conditioned on `last_run_at`
alone. -/
theorem remaining_estimate_overdue_cex :
    (0 : Int) < IntervalP.next_at ⟨30, "seconds"⟩ 0 ∧
    remaining_estimate (IntervalP.next_at ⟨30, "seconds"⟩ 0) 100 = 0 := by decide

/-! ## Claim theorems: bulk seeding -/

/-- C7: `update_from_dict` does not skip a malformed configured entry.
With a first entry lacking its `schedule` key the failure is logged
but the loop then evaluates `entry._task` on the raw dict, raising
`AttributeError` and aborting, so the following well-formed entry is
never saved — while the same well-formed entry alone is processed
without error. -/
theorem update_from_dict_aborts_on_bad_entry :
    (RedBeatScheduler.update_from_dict px0 mkRem0 0 [("bad", edBad), ("good", edGood)] st0).2
      = some .attributeError ∧
    (RedBeatScheduler.update_from_dict px0 mkRem0 0 [("bad", edBad), ("good", edGood)] st0).1
      = st0 ∧
    (RedBeatScheduler.update_from_dict px0 mkRem0 0 [("good", edGood)] st0).2 = none ∧
    lookupF (RedBeatScheduler.update_from_dict px0 mkRem0 0
      [("good", edGood)] st0).1.periodic (px0 ++ "good") ≠ none := by
  refine ⟨rfl, rfl, rfl, ?_⟩
  decide
